import Mathlib

/-!
Shallow embedding of the adaptive "Explicit Lobatto Sequence" ODE solver of
`hydpy/core/modeltools.py` (classes `NumConstsELS`, `NumVarsELS`, `ELSModel`).

Machine floats are modelled as exact reals (`ℝ`); `modelutils.exp`/
`modelutils.log` (thin Cython wrappers of the C library functions, whose
source is not part of the repository snapshot) are modelled as `Real.exp`
and `Real.log`.  A model's numeric sequences are indexed families: `ns` ODE
state sequences (fields `old`, `new`, `_points`, `_results` of the
fastaccess objects) and `nf` numeric flux sequences (value, `_points`,
`_results`, `_sum`).  The `PART_ODE_METHODS` / `FULL_ODE_METHODS` tuples of
callables become lists of state transformers applied in registration order.
The unbounded `while` loop of `ELSModel.solve` is embedded with explicit
fuel; running out of fuel yields `none`.
-/

namespace HydPy

noncomputable section

/-- Per-model numeric sequence buffers: the fastaccess storage of the `ns`
ODE state sequences and the `nf` numeric flux sequences of one model
instance. -/
@[ext]
structure Seqs (ns nf : ℕ) where
  sOld : Fin ns → ℝ
  sNew : Fin ns → ℝ
  sPoints : Fin ns → ℕ → ℝ
  sResults : Fin ns → ℕ → ℝ
  fVal : Fin nf → ℝ
  fPoints : Fin nf → ℕ → ℝ
  fResults : Fin nf → ℕ → ℝ
  fSum : Fin nf → ℝ

/-- Mirror of class `NumVarsELS` (`modeltools.py`): the mutable iteration
state of one `solve` call. -/
@[ext]
structure NumVarsELS where
  nmb_calls : ℕ
  t0 : ℝ
  t1 : ℝ
  dt_est : ℝ
  dt : ℝ
  idx_method : ℕ
  idx_stage : ℕ
  error : ℝ
  last_error : ℝ
  extrapolated_error : ℝ
  f0_ready : Bool

/-- Mirror of `NumVarsELS.__init__`. -/
def NumVarsELS.init : NumVarsELS :=
  { nmb_calls := 0, t0 := 0, t1 := 0, dt_est := 1, dt := 1,
    idx_method := 0, idx_stage := 0, error := 0, last_error := 0,
    extrapolated_error := 0, f0_ready := false }

/-- The `a_coefs` numpy array of `NumConstsELS`: its shape together with its
entries (entry access `a_coefs[m, s, j]`). -/
structure ACoefs where
  shape : ℕ × ℕ × ℕ
  entry : ℕ → ℕ → ℕ → ℝ

/-- Modelled from the spec: the packaged binary file
`a_coefficients_explicit_lobatto_sequence.npy` is not part of the repository
snapshot; only its shape is recorded, which the `NumConstsELS` doctest and
the spec both give as `(11, 12, 11)`. -/
def aCoefsELSShape : ℕ × ℕ × ℕ := (11, 12, 11)

/-- Mirror of class `NumConstsELS` (`modeltools.py`). -/
structure NumConstsELS where
  nmb_methods : ℕ
  nmb_stages : ℕ
  dt_increase : ℝ
  dt_decrease : ℝ
  a_coefs : ACoefs

/-- Mirror of `NumConstsELS.__init__`: the constants are fixed
(`10`, `11`, `2.0`, `10.0`) and the coefficient tableau is loaded from the
packaged file, whose entries are a parameter here (the binary file is not in
the repository snapshot). -/
def mkNumConstsELS (entries : ℕ → ℕ → ℕ → ℝ) : NumConstsELS :=
  { nmb_methods := 10, nmb_stages := 11, dt_increase := 2, dt_decrease := 10,
    a_coefs := { shape := aCoefsELSShape, entry := entries } }

/-- An `ELSModel` instance as the integrator sees it: the registered
`PART_ODE_METHODS` and `FULL_ODE_METHODS` callables (state transformers
applied in registration order), the numeric constants, and the two solver
parameters `abserrormax` and `reldtmin`. -/
structure ELSModel (ns nf : ℕ) where
  part_ode_methods : List (Seqs ns nf → Seqs ns nf)
  full_ode_methods : List (Seqs ns nf → Seqs ns nf)
  numconsts : NumConstsELS
  abserrormax : ℝ
  reldtmin : ℝ

/-- The full mutable state `solve` acts on: the `NumVarsELS` instance plus
the numeric sequence buffers. -/
@[ext]
structure ELSState (ns nf : ℕ) where
  nv : NumVarsELS
  seq : Seqs ns nf

variable {ns nf : ℕ}

/-- Mirror of `ELSModel.calculate_single_terms`: increment `nmb_calls` and
apply every `PART_ODE_METHODS` callable in registration order. -/
def calculate_single_terms (M : ELSModel ns nf) (st : ELSState ns nf) : ELSState ns nf :=
  { nv := { st.nv with nmb_calls := st.nv.nmb_calls + 1 },
    seq := M.part_ode_methods.foldl (fun σ f => f σ) st.seq }

/-- Mirror of `ELSModel.calculate_full_terms`: apply every
`FULL_ODE_METHODS` callable in registration order. -/
def calculate_full_terms (M : ELSModel ns nf) (st : ELSState ns nf) : ELSState ns nf :=
  { st with seq := M.full_ode_methods.foldl (fun σ f => f σ) st.seq }

/-- Mirror of `ELSModel.get_point_states`: for every state sequence, load
`new` from `_points[idx_stage]`. -/
def get_point_states (st : ELSState ns nf) : ELSState ns nf :=
  { st with seq := { st.seq with sNew := fun i => st.seq.sPoints i st.nv.idx_stage } }

/-- Mirror of `ELSModel.set_point_states`: for every state sequence, store
`new` into `_points[idx_stage]`. -/
def set_point_states (st : ELSState ns nf) : ELSState ns nf :=
  { st with seq := { st.seq with
      sPoints := fun i => Function.update (st.seq.sPoints i) st.nv.idx_stage (st.seq.sNew i) } }

/-- Mirror of `ELSModel.set_result_states`: for every state sequence, store
`new` into `_results[idx_method]`. -/
def set_result_states (st : ELSState ns nf) : ELSState ns nf :=
  { st with seq := { st.seq with
      sResults := fun i => Function.update (st.seq.sResults i) st.nv.idx_method (st.seq.sNew i) } }

/-- Mirror of `ELSModel.get_sum_fluxes`: for every numeric flux sequence,
load the externally visible value from `_sum`. -/
def get_sum_fluxes (st : ELSState ns nf) : ELSState ns nf :=
  { st with seq := { st.seq with fVal := fun i => st.seq.fSum i } }

/-- Mirror of `ELSModel.set_point_fluxes`: for every numeric flux sequence,
store the current value into `_points[idx_stage]`. -/
def set_point_fluxes (st : ELSState ns nf) : ELSState ns nf :=
  { st with seq := { st.seq with
      fPoints := fun i => Function.update (st.seq.fPoints i) st.nv.idx_stage (st.seq.fVal i) } }

/-- Mirror of `ELSModel.set_result_fluxes`: for every numeric flux sequence,
store the current value into `_results[idx_method]`. -/
def set_result_fluxes (st : ELSState ns nf) : ELSState ns nf :=
  { st with seq := { st.seq with
      fResults := fun i => Function.update (st.seq.fResults i) st.nv.idx_method (st.seq.fVal i) } }

/-- Mirror of `ELSModel.integrate_fluxes`: for every numeric flux sequence,
set the current value to `dt` times the dot product of
`a_coefs[idx_method-1, idx_stage, :idx_method]` with `_points[:idx_method]`. -/
def integrate_fluxes (M : ELSModel ns nf) (st : ELSState ns nf) : ELSState ns nf :=
  { st with seq := { st.seq with
      fVal := fun i => st.nv.dt *
        ∑ j ∈ Finset.range st.nv.idx_method,
          M.numconsts.a_coefs.entry (st.nv.idx_method - 1) st.nv.idx_stage j *
            st.seq.fPoints i j } }

/-- Mirror of `ELSModel.reset_sum_fluxes`: set `_sum` to zero for every
numeric flux sequence. -/
def reset_sum_fluxes (st : ELSState ns nf) : ELSState ns nf :=
  { st with seq := { st.seq with fSum := fun _ => 0 } }

/-- Mirror of `ELSModel.addup_fluxes`: add the current value onto `_sum` for
every numeric flux sequence. -/
def addup_fluxes (st : ELSState ns nf) : ELSState ns nf :=
  { st with seq := { st.seq with fSum := fun i => st.seq.fSum i + st.seq.fVal i } }

/-- Mirror of `ELSModel.calculate_error`: starting from zero, fold the
maximum of `|_results[idx_method] - _results[idx_method-1]|` over the
numeric flux sequences into `error`. -/
def calculate_error (st : ELSState ns nf) : ELSState ns nf :=
  { st with nv := { st.nv with
      error := (List.finRange nf).foldl
        (fun e i => max e |st.seq.fResults i st.nv.idx_method -
          st.seq.fResults i (st.nv.idx_method - 1)|) 0 } }

/-- Mirror of `ELSModel.extrapolate_error`: log-linear extrapolation of the
error towards the highest method order for `idx_method > 2`, the sentinel
`-999.9` otherwise. -/
def extrapolate_error (M : ELSModel ns nf) (st : ELSState ns nf) : ELSState ns nf :=
  { st with nv := { st.nv with
      extrapolated_error :=
        if 2 < st.nv.idx_method then
          Real.exp (Real.log st.nv.error +
            (Real.log st.nv.error - Real.log st.nv.last_error) *
              ((M.numconsts.nmb_methods : ℝ) - (st.nv.idx_method : ℝ)))
        else -(9999 / 10) } }

/-- Modelled from the spec: `Model.new2old` delegates to
`StateSequences.new2old` of module `sequencetools`, which is not part of the
repository snapshot; per the spec it commits the accepted step by copying
every state's `new` value into `old` (a double-buffer swap). -/
def new2old (st : ELSState ns nf) : ELSState ns nf :=
  { st with seq := { st.seq with sOld := st.seq.sNew } }

/-- Set `numvars.idx_method` (the header of the method-order `for` loop). -/
def set_idx_method (m : ℕ) (st : ELSState ns nf) : ELSState ns nf :=
  { st with nv := { st.nv with idx_method := m } }

/-- Set `numvars.idx_stage` (the header of the two stage `for` loops). -/
def set_idx_stage (s : ℕ) (st : ELSState ns nf) : ELSState ns nf :=
  { st with nv := { st.nv with idx_stage := s } }

/-- Body of the first stage loop of `ELSModel.solve`
(`get_point_states`; `calculate_single_terms`; `set_point_fluxes`). -/
def stageA_body (M : ELSModel ns nf) (st : ELSState ns nf) (s : ℕ) : ELSState ns nf :=
  set_point_fluxes (calculate_single_terms M (get_point_states (set_idx_stage s st)))

/-- First stage loop of `ELSModel.solve`:
`for idx_stage in range(1, idx_method)`. -/
def stageLoopA (M : ELSModel ns nf) (m : ℕ) (st : ELSState ns nf) : ELSState ns nf :=
  (List.range' 1 (m - 1)).foldl (stageA_body M) st

/-- Body of the second stage loop of `ELSModel.solve`
(`integrate_fluxes`; `calculate_full_terms`; `set_point_states`). -/
def stageB_body (M : ELSModel ns nf) (st : ELSState ns nf) (s : ℕ) : ELSState ns nf :=
  set_point_states (calculate_full_terms M (integrate_fluxes M (set_idx_stage s st)))

/-- Second stage loop of `ELSModel.solve`:
`for idx_stage in range(1, idx_method+1)`. -/
def stageLoopB (M : ELSModel ns nf) (m : ℕ) (st : ELSState ns nf) : ELSState ns nf :=
  (List.range' 1 m).foldl (stageB_body M) st

/-- One method-order iteration of `ELSModel.solve` up to and including the
`extrapolate_error` call (both stage loops, result storage, error
estimation), with `idx_method` set to `m` by the loop header. -/
def methodCore (M : ELSModel ns nf) (m : ℕ) (st : ELSState ns nf) : ELSState ns nf :=
  extrapolate_error M (calculate_error (set_result_states (set_result_fluxes
    (stageLoopB M m (stageLoopA M m (set_idx_method m st))))))

/-- How one method-order iteration of `ELSModel.solve` ends: `continue` to
the next order, `break` after accepting the sub-interval, or `break` after
rejecting it and shrinking the step-size estimate. -/
inductive MethodExit where
  | nextOrder : MethodExit
  | accepted : MethodExit
  | shrunk : MethodExit

/-- Advance `t0` by `dt` (the `self.numvars.t0 = self.numvars.t0 +
self.numvars.dt` statement of the accepting branches of `solve`). -/
def advance_t0 (st : ELSState ns nf) : ELSState ns nf :=
  { st with nv := { st.nv with t0 := st.nv.t0 + st.nv.dt } }

/-- One full method-order iteration of `ELSModel.solve`: run `methodCore`,
then take the accept branch (`error <= abserrormax`), the reject-and-shrink
branch (`extrapolated_error > abserrormax and dt > reldtmin`), or fall
through to the next order. -/
def methodStep (M : ELSModel ns nf) (m : ℕ) (st : ELSState ns nf) :
    ELSState ns nf × MethodExit :=
  let st1 := methodCore M m st
  if m = 1 then (st1, MethodExit.nextOrder)
  else if st1.nv.error ≤ M.abserrormax then
    (new2old (advance_t0 (addup_fluxes
      { st1 with nv := { st1.nv with
          dt_est := M.numconsts.dt_increase * st1.nv.dt, f0_ready := false } })),
      MethodExit.accepted)
  else if M.abserrormax < st1.nv.extrapolated_error ∧ M.reldtmin < st1.nv.dt then
    ({ st1 with nv := { st1.nv with
        f0_ready := true, dt_est := st1.nv.dt / M.numconsts.dt_decrease } },
      MethodExit.shrunk)
  else
    ({ st1 with nv := { st1.nv with last_error := st1.nv.error, f0_ready := true } },
      MethodExit.nextOrder)

/-- The method-order `for` loop of `ELSModel.solve` over a list of method
indices; the boolean records whether the loop was left by `break` (so that
the `for`-`else` clause knows whether to run). -/
def methodLoop (M : ELSModel ns nf) : List ℕ → ELSState ns nf → ELSState ns nf × Bool
  | [], st => (st, false)
  | m :: rest, st =>
    match (methodStep M m st).2 with
    | MethodExit.nextOrder => methodLoop M rest (methodStep M m st).1
    | MethodExit.accepted => ((methodStep M m st).1, true)
    | MethodExit.shrunk => ((methodStep M m st).1, true)

/-- The method-order loop of `ELSModel.solve` over
`range(1, nmb_methods + 1)`. -/
def methodLoopAll (M : ELSModel ns nf) (st : ELSState ns nf) : ELSState ns nf × Bool :=
  methodLoop M (List.range' 1 M.numconsts.nmb_methods) st

/-- First two statements of every outer-loop iteration of `ELSModel.solve`:
`last_error = 999999.` and `dt = min(t1 - t0, max(dt_est, reldtmin))`. -/
def beginIteration (M : ELSModel ns nf) (st : ELSState ns nf) : ELSState ns nf :=
  { st with nv := { st.nv with
      last_error := 999999,
      dt := min (st.nv.t1 - st.nv.t0) (max st.nv.dt_est M.reldtmin) } }

/-- The `if not self.numvars.f0_ready` block of `ELSModel.solve`: evaluate
the stage-0 derivatives and store them as point and result number zero. -/
def stage0 (M : ELSModel ns nf) (st : ELSState ns nf) : ELSState ns nf :=
  if st.nv.f0_ready then st
  else
    set_result_states (set_point_states (set_point_fluxes
      (set_idx_stage 0 (set_idx_method 0 (calculate_single_terms M st)))))

/-- The `for`-`else` clause of the method-order loop of `ELSModel.solve`:
when the loop was not left by `break`, either accept the sub-interval anyway
(`dt <= reldtmin`) or shrink the step-size estimate and retry. -/
def fallback (M : ELSModel ns nf) (st : ELSState ns nf) (broke : Bool) : ELSState ns nf :=
  if broke then st
  else if st.nv.dt ≤ M.reldtmin then
    new2old (advance_t0 (addup_fluxes
      { st with nv := { st.nv with f0_ready := false } }))
  else
    { st with nv := { st.nv with
        f0_ready := true, dt_est := st.nv.dt / M.numconsts.dt_decrease } }

/-- One iteration of the outer `while` loop of `ELSModel.solve`. -/
def outerIter (M : ELSModel ns nf) (st : ELSState ns nf) : ELSState ns nf :=
  let p := methodLoopAll M (stage0 M (beginIteration M st))
  fallback M p.1 p.2

/-- The round-off guard of the outer `while` loop of `ELSModel.solve`
(`while t0 < t1 - 1e-14`). -/
def epsELS : ℝ := 1 / 10 ^ 14

/-- The outer `while` loop of `ELSModel.solve`, with explicit fuel: `none`
means the fuel was exhausted before the loop condition failed. -/
def solveLoop (M : ELSModel ns nf) : ℕ → ELSState ns nf → Option (ELSState ns nf)
  | 0, _ => none
  | fuel + 1, st =>
    if st.nv.t0 < st.nv.t1 - epsELS then solveLoop M fuel (outerIter M st)
    else some st

/-- Mirror of `ELSModel.solve`: initialise `t0`, `t1`, `dt_est`, `f0_ready`,
reset the flux sums, run the outer loop, and finally write the accumulated
sums back into the flux values. -/
def solve (M : ELSModel ns nf) (fuel : ℕ) (st : ELSState ns nf) :
    Option (ELSState ns nf) :=
  (solveLoop M fuel (reset_sum_fluxes
    { st with nv := { st.nv with t0 := 0, t1 := 1, dt_est := 1, f0_ready := false } })).map
    get_sum_fluxes

/-- The truncating dot product `numpy.dot(coefficients[...][:m], points[:m])`
of the spec's description of `integrate_fluxes`, written independently as a
fold over the zipped prefix lists. -/
def dotList (xs ys : List ℝ) : ℝ :=
  ((xs.zip ys).map fun p => p.1 * p.2).sum

/-- The components of the iteration state that one method-order iteration of
`solve` must not touch before its accept/shrink decision: `t0`, `t1`, `dt`,
`dt_est` and (once set by the loop header) `idx_method`. -/
def presProj {ns nf : ℕ} (st : ELSState ns nf) : ℝ × ℝ × ℝ × ℝ × ℕ :=
  (st.nv.t0, st.nv.t1, st.nv.dt, st.nv.dt_est, st.nv.idx_method)

/-- The components of the iteration state the pre-method-loop phases of an
outer iteration must not touch: `t0`, `t1`, `dt` and `dt_est`. -/
def pres4 {ns nf : ℕ} (st : ELSState ns nf) : ℝ × ℝ × ℝ × ℝ :=
  (st.nv.t0, st.nv.t1, st.nv.dt, st.nv.dt_est)

/-- Placeholder tableau entries for concrete example models (the packaged
binary file holding the real entries is not in the repository snapshot). -/
def exEntries : ℕ → ℕ → ℕ → ℝ := fun _ _ _ => 0

/-- A `PART_ODE_METHODS` callable producing a zero derivative: it sets every
numeric flux's current value to zero (`test_v1.Calc_Q_V1` with `k = 0`). -/
def zeroPartTerm : Seqs 1 1 → Seqs 1 1 := fun σ => { σ with fVal := fun _ => 0 }

/-- A `FULL_ODE_METHODS` callable for a zero derivative: it leaves every
state's `new` value equal to its `old` value (`test_v1.Calc_S_V1` with a
zero flux). -/
def zeroFullTerm : Seqs 1 1 → Seqs 1 1 := fun σ => { σ with sNew := σ.sOld }

/-- Concrete example model: one ODE state, one numeric flux, zero-derivative
callables, `abserrormax = 1e-2`, `reldtmin = 1e-4` (the `test_v1` doctest
configuration of `ELSModel.solve`). -/
def exModel : ELSModel 1 1 :=
  { part_ode_methods := [zeroPartTerm], full_ode_methods := [zeroFullTerm],
    numconsts := mkNumConstsELS exEntries,
    abserrormax := 1 / 100, reldtmin := 1 / 10 ^ 4 }

/-- Concrete example buffers: state value `1.0`, all scratch buffers zero. -/
def exSeqs : Seqs 1 1 :=
  { sOld := fun _ => 1, sNew := fun _ => 1, sPoints := fun _ _ => 0,
    sResults := fun _ _ => 0, fVal := fun _ => 0, fPoints := fun _ _ => 0,
    fResults := fun _ _ => 0, fSum := fun _ => 0 }

/-- Concrete example solver state with freshly initialised `NumVarsELS`. -/
def exState : ELSState 1 1 := { nv := NumVarsELS.init, seq := exSeqs }

/-- Example iteration state for the `integrate_fluxes` doctest situation:
`idx_method = 2`, `idx_stage = 1`, `dt = 0.5`. -/
def exNv2 : NumVarsELS :=
  { NumVarsELS.init with idx_method := 2, idx_stage := 1, dt := 1 / 2 }

/-- Example solver state built on `exNv2`. -/
def exState2 : ELSState 1 1 := { nv := exNv2, seq := exSeqs }

/-- Example iteration state for the `extrapolate_error` doctest situation:
`error = 1e-2`, `last_error = 1e-1`, with selectable `idx_method`. -/
def exNvE (m : ℕ) : NumVarsELS :=
  { NumVarsELS.init with idx_method := m, error := 1 / 100, last_error := 1 / 10 }

/-- Example solver state built on `exNvE`. -/
def exStateE (m : ℕ) : ELSState 1 1 := { nv := exNvE m, seq := exSeqs }

/-- Example model with no numeric sequences, a single method order
(`nmb_methods = 1`, a solver option the `NumConstsELS` docstring invites
users to change), `abserrormax = -1` (unsatisfiable tolerance) and
`reldtmin = 1`: its method-order loop always completes without `break`. -/
def exModelMin : ELSModel 0 0 :=
  { part_ode_methods := [], full_ode_methods := [],
    numconsts :=
      { nmb_methods := 1, nmb_stages := 11, dt_increase := 2,
        dt_decrease := 10,
        a_coefs := { shape := aCoefsELSShape, entry := exEntries } },
    abserrormax := -1, reldtmin := 1 }

/-- Empty buffer family for a model with no numeric sequences. -/
def exSeqs0 : Seqs 0 0 :=
  { sOld := Fin.elim0, sNew := Fin.elim0, sPoints := Fin.elim0,
    sResults := Fin.elim0, fVal := Fin.elim0, fPoints := Fin.elim0,
    fResults := Fin.elim0, fSum := Fin.elim0 }

/-- Solver state for `exModelMin` after the initialisation done by `solve`
(`t0 = 0`, `t1 = 1`, `dt_est = 1`, `f0_ready = false`). -/
def exState0 : ELSState 0 0 :=
  { nv := { NumVarsELS.init with t1 := 1 }, seq := exSeqs0 }

end

noncomputable section

variable {ns nf : ℕ}

/-- Truncated dot products of equal-length prefix lists agree with the
finite sum over the index range. -/
lemma dotList_map_range (f g : ℕ → ℝ) (m : ℕ) :
    dotList ((List.range m).map f) ((List.range m).map g) =
      ∑ j ∈ Finset.range m, f j * g j := by
  unfold dotList
  rw [List.zip_map']
  induction m with
  | zero => simp
  | succ n ih => rw [Finset.sum_range_succ, ← ih]; simp [List.range_succ]

/-- The initial accumulator is a lower bound of a `foldl max`. -/
lemma le_foldl_max {α : Type} (f : α → ℝ) :
    ∀ (l : List α) (a : ℝ), a ≤ l.foldl (fun e x => max e (f x)) a := by
  intro l
  induction l with
  | nil => intro a; exact le_rfl
  | cons y ys ih =>
    intro a
    exact le_trans (le_max_left a (f y)) (ih (max a (f y)))

/-- Every listed value is a lower bound of a `foldl max`. -/
lemma foldl_max_mem_le {α : Type} (f : α → ℝ) :
    ∀ (l : List α) (a : ℝ) (x : α), x ∈ l →
      f x ≤ l.foldl (fun e u => max e (f u)) a := by
  intro l
  induction l with
  | nil => intro a x hx; cases hx
  | cons y ys ih =>
    intro a x hx
    rcases List.mem_cons.mp hx with h | h
    · subst h
      exact le_trans (le_max_right a (f x)) (le_foldl_max f ys (max a (f x)))
    · exact ih (max a (f y)) x h

/-- A `foldl max` yields either the initial accumulator or one of the listed
values. -/
lemma foldl_max_eq_init_or_mem {α : Type} (f : α → ℝ) :
    ∀ (l : List α) (a : ℝ),
      l.foldl (fun e x => max e (f x)) a = a ∨
        ∃ x ∈ l, l.foldl (fun e u => max e (f u)) a = f x := by
  intro l
  induction l with
  | nil => intro a; exact Or.inl rfl
  | cons y ys ih =>
    intro a
    rcases ih (max a (f y)) with h | ⟨x, hx, hfx⟩
    · rcases max_choice a (f y) with hm | hm
      · exact Or.inl (by rw [List.foldl_cons, h, hm])
      · exact Or.inr ⟨y, List.mem_cons_self y ys, by rw [List.foldl_cons, h, hm]⟩
    · exact Or.inr ⟨x, List.mem_cons_of_mem y hx, hfx⟩

/-- A projection preserved by every iteration of a `foldl` is preserved by
the whole fold. -/
lemma foldl_proj_preserved {β : Type} (g : ELSState ns nf → β)
    (f : ELSState ns nf → ℕ → ELSState ns nf)
    (hf : ∀ st s, g (f st s) = g st) :
    ∀ (l : List ℕ) (st : ELSState ns nf), g (l.foldl f st) = g st := by
  intro l
  induction l with
  | nil => intro st; rfl
  | cons y ys ih => intro st; rw [List.foldl_cons, ih, hf]

/-- `methodCore` touches only the buffers, the call counter, the stage index
and the error fields: `t0`, `t1`, `dt`, `dt_est` keep their values and
`idx_method` keeps the value `m` set by the loop header. -/
lemma methodCore_pres (M : ELSModel ns nf) (m : ℕ) (st : ELSState ns nf) :
    presProj (methodCore M m st) = presProj (set_idx_method m st) := by
  unfold methodCore stageLoopA stageLoopB
  rw [show ∀ u : ELSState ns nf,
      presProj (extrapolate_error M (calculate_error (set_result_states
        (set_result_fluxes u)))) = presProj u from fun u => rfl]
  rw [foldl_proj_preserved presProj (stageB_body M) (fun u s => rfl)]
  rw [foldl_proj_preserved presProj (stageA_body M) (fun u s => rfl)]

/-- `t0` after `methodCore`. -/
lemma methodCore_t0 (M : ELSModel ns nf) (m : ℕ) (st : ELSState ns nf) :
    (methodCore M m st).nv.t0 = st.nv.t0 :=
  congrArg (fun p => p.1) (methodCore_pres M m st)

/-- `t1` after `methodCore`. -/
lemma methodCore_t1 (M : ELSModel ns nf) (m : ℕ) (st : ELSState ns nf) :
    (methodCore M m st).nv.t1 = st.nv.t1 :=
  congrArg (fun p => p.2.1) (methodCore_pres M m st)

/-- `dt` after `methodCore`. -/
lemma methodCore_dt (M : ELSModel ns nf) (m : ℕ) (st : ELSState ns nf) :
    (methodCore M m st).nv.dt = st.nv.dt :=
  congrArg (fun p => p.2.2.1) (methodCore_pres M m st)

/-- `dt_est` after `methodCore`. -/
lemma methodCore_dt_est (M : ELSModel ns nf) (m : ℕ) (st : ELSState ns nf) :
    (methodCore M m st).nv.dt_est = st.nv.dt_est :=
  congrArg (fun p => p.2.2.2.1) (methodCore_pres M m st)

/-- `idx_method` after `methodCore` is the value set by the loop header. -/
lemma methodCore_idx_method (M : ELSModel ns nf) (m : ℕ) (st : ELSState ns nf) :
    (methodCore M m st).nv.idx_method = m :=
  congrArg (fun p => p.2.2.2.2) (methodCore_pres M m st)

/-- At method order at most two, `methodCore` leaves the sentinel `-999.9`
in `extrapolated_error`. -/
lemma methodCore_extrapolated_sentinel (M : ELSModel ns nf) (m : ℕ)
    (st : ELSState ns nf) (hm : m ≤ 2) :
    (methodCore M m st).nv.extrapolated_error = -(9999 / 10) := by
  have hidx : (calculate_error (set_result_states (set_result_fluxes
      (stageLoopB M m (stageLoopA M m (set_idx_method m st)))))).nv.idx_method = m := by
    have h := methodCore_idx_method M m st
    unfold methodCore at h
    exact h
  unfold methodCore extrapolate_error
  rw [if_neg]
  rw [hidx]
  omega

end

noncomputable section

/-- C4. Flux integration formula: for every numeric flux and every method
index `idx_method ≥ 1`, `integrate_fluxes` sets the flux's current value to
`dt` times the dot product of the first `idx_method` tableau weights of row
`(idx_method - 1, idx_stage)` with the first `idx_method` stage-point
values of that flux. -/
theorem integrate_fluxes_dot_formula {ns nf : ℕ} (M : ELSModel ns nf)
    (st : ELSState ns nf) (hm : 1 ≤ st.nv.idx_method) (i : Fin nf) :
    (integrate_fluxes M st).seq.fVal i =
      st.nv.dt * dotList
        ((List.range st.nv.idx_method).map
          (M.numconsts.a_coefs.entry (st.nv.idx_method - 1) st.nv.idx_stage))
        ((List.range st.nv.idx_method).map (st.seq.fPoints i)) := by
  rw [dotList_map_range]
  rfl

/-- Witness for C4 at the `integrate_fluxes` doctest situation
(`idx_method = 2`, `idx_stage = 1`, `dt = 0.5`). -/
theorem integrate_fluxes_dot_formula_witness :
    1 ≤ exState2.nv.idx_method ∧
    (integrate_fluxes exModel exState2).seq.fVal 0 =
      exState2.nv.dt * dotList
        ((List.range exState2.nv.idx_method).map
          (exModel.numconsts.a_coefs.entry (exState2.nv.idx_method - 1)
            exState2.nv.idx_stage))
        ((List.range exState2.nv.idx_method).map (exState2.seq.fPoints 0)) :=
  ⟨by norm_num [exState2, exNv2, NumVarsELS.init],
    integrate_fluxes_dot_formula exModel exState2
      (by norm_num [exState2, exNv2, NumVarsELS.init]) 0⟩

/-- C5. Error estimate is a sup-norm: for `idx_method ≥ 2`, after
`calculate_error` the `error` field is zero when the model declares no
numeric fluxes, bounds the per-flux absolute result differences
`|results[idx_method] - results[idx_method - 1]|` from above, and is
attained by one of them whenever there is at least one numeric flux. -/
theorem calculate_error_sup_norm {ns nf : ℕ} (st : ELSState ns nf)
    (hm : 2 ≤ st.nv.idx_method) :
    (nf = 0 → (calculate_error st).nv.error = 0) ∧
    (∀ i : Fin nf,
      |st.seq.fResults i st.nv.idx_method -
        st.seq.fResults i (st.nv.idx_method - 1)| ≤ (calculate_error st).nv.error) ∧
    (0 < nf → ∃ i : Fin nf,
      (calculate_error st).nv.error =
        |st.seq.fResults i st.nv.idx_method -
          st.seq.fResults i (st.nv.idx_method - 1)|) := by
  have herr : (calculate_error st).nv.error = (List.finRange nf).foldl
      (fun e i => max e |st.seq.fResults i st.nv.idx_method -
        st.seq.fResults i (st.nv.idx_method - 1)|) 0 := rfl
  refine ⟨fun h => ?_, fun i => ?_, fun h => ?_⟩
  · subst h
    rfl
  · rw [herr]
    exact foldl_max_mem_le
      (fun i : Fin nf => |st.seq.fResults i st.nv.idx_method -
        st.seq.fResults i (st.nv.idx_method - 1)|) (List.finRange nf) 0 i
      (List.mem_finRange i)
  · rcases foldl_max_eq_init_or_mem
        (fun i : Fin nf => |st.seq.fResults i st.nv.idx_method -
          st.seq.fResults i (st.nv.idx_method - 1)|) (List.finRange nf) 0 with
      h0 | ⟨x, _, hx⟩
    · refine ⟨⟨0, h⟩, le_antisymm ?_ ?_⟩
      · rw [herr, h0]
        positivity
      · have hb := foldl_max_mem_le
          (fun i : Fin nf => |st.seq.fResults i st.nv.idx_method -
            st.seq.fResults i (st.nv.idx_method - 1)|) (List.finRange nf) 0
          ⟨0, h⟩ (List.mem_finRange _)
        rw [h0] at hb
        rw [herr, h0]
        exact hb
    · exact ⟨x, hx⟩

/-- Witness for C5 at `exState2` (`idx_method = 2`, one numeric flux). -/
theorem calculate_error_sup_norm_witness :
    (1 = 0 → (calculate_error exState2).nv.error = 0) ∧
    (∀ i : Fin 1,
      |exState2.seq.fResults i exState2.nv.idx_method -
        exState2.seq.fResults i (exState2.nv.idx_method - 1)| ≤
          (calculate_error exState2).nv.error) ∧
    (0 < 1 → ∃ i : Fin 1,
      (calculate_error exState2).nv.error =
        |exState2.seq.fResults i exState2.nv.idx_method -
          exState2.seq.fResults i (exState2.nv.idx_method - 1)|) :=
  calculate_error_sup_norm exState2 (by norm_num [exState2, exNv2, NumVarsELS.init])

/-- C7 (amended). Last-error sentinel: at the start of every outer-loop
iteration of `solve` (before the sub-interval step size is used and before
any method order is tried), `last_error` is set to the finite sentinel
`999999.0`. -/
theorem last_error_sentinel_value {ns nf : ℕ} (M : ELSModel ns nf)
    (st : ELSState ns nf) :
    (beginIteration M st).nv.last_error = 999999 :=
  rfl

/-- Counterexample for C7 as stated: the sentinel written into `last_error`
is the finite value `999999.0`, not `+infinity` — the real number `10 ^ 6`
already exceeds it. -/
theorem last_error_not_infinity :
    (beginIteration exModel exState).nv.last_error = 999999 ∧
    (beginIteration exModel exState).nv.last_error < 10 ^ 6 := by
  constructor
  · rfl
  · rw [last_error_sentinel_value]
    norm_num

/-- C8 (amended). Constant-table construction: a freshly constructed
`NumConstsELS` has `nmb_methods = 10`, `nmb_stages = 11`,
`dt_increase = 2.0`, `dt_decrease = 10.0`, and a coefficient array of shape
`(11, 12, 11)` — its first dimension equals `nmb_stages = 11 =
nmb_methods + 1`, not `nmb_methods`. -/
theorem numconsts_default_values (entries : ℕ → ℕ → ℕ → ℝ) :
    (mkNumConstsELS entries).nmb_methods = 10 ∧
    (mkNumConstsELS entries).nmb_stages = 11 ∧
    (mkNumConstsELS entries).dt_increase = 2 ∧
    (mkNumConstsELS entries).dt_decrease = 10 ∧
    (mkNumConstsELS entries).a_coefs.shape = (11, 12, 11) ∧
    (mkNumConstsELS entries).a_coefs.shape.1 = (mkNumConstsELS entries).nmb_methods + 1 :=
  ⟨rfl, rfl, rfl, rfl, rfl, rfl⟩

/-- Counterexample for C8 as stated: the first dimension of the coefficient
array of a freshly constructed `NumConstsELS` is `11`, not
`nmb_methods = 10`. -/
theorem a_coefs_first_dim_ne_nmb_methods :
    (mkNumConstsELS exEntries).a_coefs.shape.1 = 11 ∧
    (mkNumConstsELS exEntries).a_coefs.shape.1 ≠ (mkNumConstsELS exEntries).nmb_methods := by
  exact ⟨rfl, by decide⟩

/-- C9. Idempotent reset: for every prior accumulated state of the sum
buffers, `reset_sum_fluxes` followed immediately by `get_sum_fluxes` leaves
every numeric flux's externally visible value equal to zero. -/
theorem reset_then_get_sum_fluxes_zero {ns nf : ℕ} (st : ELSState ns nf) (i : Fin nf) :
    (get_sum_fluxes (reset_sum_fluxes st)).seq.fVal i = 0 :=
  rfl

/-- C10. Shrink branch unreachable at order two: for every nonnegative
tolerance `abserrormax`, a method-order iteration with `idx_method ≤ 2`
never exits through the reject-and-shrink branch, because
`extrapolate_error` leaves the negative sentinel `-999.9` there. -/
theorem no_shrink_at_order_two {ns nf : ℕ} (M : ELSModel ns nf)
    (st : ELSState ns nf) (m : ℕ) (hm : m ≤ 2) (ha : 0 ≤ M.abserrormax) :
    (methodStep M m st).2 ≠ MethodExit.shrunk := by
  unfold methodStep
  by_cases h1 : m = 1
  · simp [h1]
  · rw [if_neg h1]
    by_cases h2 : (methodCore M m st).nv.error ≤ M.abserrormax
    · rw [if_pos h2]
      intro h
      cases h
    · rw [if_neg h2, if_neg]
      · intro h
        cases h
      · rintro ⟨hgt, -⟩
        rw [methodCore_extrapolated_sentinel M m st hm] at hgt
        linarith

/-- Witness for C10 at `exModel`, method order two. -/
theorem no_shrink_at_order_two_witness :
    (methodStep exModel 2 exState).2 ≠ MethodExit.shrunk :=
  no_shrink_at_order_two exModel exState 2 (by norm_num)
    (by norm_num [exModel])

/-- C6. Error extrapolation: for `idx_method > 2`, `extrapolate_error` sets
`extrapolated_error = exp(ln(error) + (ln(error) - ln(last_error)) *
(nmb_methods - idx_method))`, and for `idx_method ≤ 2` it sets the sentinel
`-999.9`; with `error = 1e-2`, `last_error = 1e-1` and `nmb_methods = 10` it
yields `0.01` at `idx_method = 10` and `0.001` at `idx_method = 9`. -/
theorem extrapolate_error_formula :
    (∀ (n k : ℕ) (M : ELSModel n k) (st : ELSState n k), 2 < st.nv.idx_method →
      (extrapolate_error M st).nv.extrapolated_error =
        Real.exp (Real.log st.nv.error +
          (Real.log st.nv.error - Real.log st.nv.last_error) *
            ((M.numconsts.nmb_methods : ℝ) - (st.nv.idx_method : ℝ)))) ∧
    (∀ (n k : ℕ) (M : ELSModel n k) (st : ELSState n k), st.nv.idx_method ≤ 2 →
      (extrapolate_error M st).nv.extrapolated_error = -(9999 / 10)) ∧
    (extrapolate_error exModel (exStateE 10)).nv.extrapolated_error = 1 / 100 ∧
    (extrapolate_error exModel (exStateE 9)).nv.extrapolated_error = 1 / 1000 ∧
    (extrapolate_error exModel (exStateE 2)).nv.extrapolated_error = -(9999 / 10) := by
  have hgen : ∀ (n k : ℕ) (M : ELSModel n k) (st : ELSState n k),
      2 < st.nv.idx_method →
      (extrapolate_error M st).nv.extrapolated_error =
        Real.exp (Real.log st.nv.error +
          (Real.log st.nv.error - Real.log st.nv.last_error) *
            ((M.numconsts.nmb_methods : ℝ) - (st.nv.idx_method : ℝ))) := by
    intro n k M st h
    unfold extrapolate_error
    rw [if_pos h]
  refine ⟨hgen, fun n k M st h => ?_, ?_, ?_, ?_⟩
  · unfold extrapolate_error
    rw [if_neg]
    omega
  · rw [hgen 1 1 exModel (exStateE 10) (by norm_num [exStateE, exNvE, NumVarsELS.init])]
    have h1 : ((exModel.numconsts.nmb_methods : ℝ) -
        ((exStateE 10).nv.idx_method : ℝ)) = 0 := by
      norm_num [exModel, mkNumConstsELS, exStateE, exNvE, NumVarsELS.init]
    rw [h1, mul_zero, add_zero]
    rw [show (exStateE 10).nv.error = 1 / 100 from rfl]
    exact Real.exp_log (by norm_num)
  · rw [hgen 1 1 exModel (exStateE 9) (by norm_num [exStateE, exNvE, NumVarsELS.init])]
    have h1 : ((exModel.numconsts.nmb_methods : ℝ) -
        ((exStateE 9).nv.idx_method : ℝ)) = 1 := by
      norm_num [exModel, mkNumConstsELS, exStateE, exNvE, NumVarsELS.init]
    rw [h1, mul_one]
    rw [show (exStateE 9).nv.error = 1 / 100 from rfl,
      show (exStateE 9).nv.last_error = 1 / 10 from rfl]
    rw [show (1 / 100 : ℝ) = (1 / 10) ^ 2 by norm_num, Real.log_pow]
    have h3 : ((2 : ℕ) : ℝ) * Real.log (1 / 10) +
        (((2 : ℕ) : ℝ) * Real.log (1 / 10) - Real.log (1 / 10)) =
          ((3 : ℕ) : ℝ) * Real.log (1 / 10) := by
      push_cast
      ring
    rw [h3, ← Real.log_pow]
    rw [Real.exp_log (by norm_num)]
    norm_num
  · unfold extrapolate_error
    rw [if_neg (by norm_num [exStateE, exNvE, NumVarsELS.init])]

/-- One method-order iteration ends in one of three ways: `continue` with
`t0`, `t1`, `dt`, `dt_est` untouched; `break` accepting with `t0` advanced
by `dt`; or `break` shrinking with `t0` kept, `dt_est` set to
`dt / dt_decrease`, which requires `dt > reldtmin`. -/
lemma methodStep_cases {ns nf : ℕ} (M : ELSModel ns nf) (m : ℕ) (st : ELSState ns nf) :
    ((methodStep M m st).2 = MethodExit.nextOrder ∧
      (methodStep M m st).1.nv.t0 = st.nv.t0 ∧
      (methodStep M m st).1.nv.t1 = st.nv.t1 ∧
      (methodStep M m st).1.nv.dt = st.nv.dt ∧
      (methodStep M m st).1.nv.dt_est = st.nv.dt_est) ∨
    ((methodStep M m st).2 = MethodExit.accepted ∧
      (methodStep M m st).1.nv.t0 = st.nv.t0 + st.nv.dt ∧
      (methodStep M m st).1.nv.t1 = st.nv.t1) ∨
    ((methodStep M m st).2 = MethodExit.shrunk ∧
      (methodStep M m st).1.nv.t0 = st.nv.t0 ∧
      (methodStep M m st).1.nv.t1 = st.nv.t1 ∧
      (methodStep M m st).1.nv.dt_est = st.nv.dt / M.numconsts.dt_decrease ∧
      M.reldtmin < st.nv.dt) := by
  simp only [methodStep]
  split_ifs with h1 h2 h3
  · exact Or.inl ⟨rfl, methodCore_t0 M m st, methodCore_t1 M m st,
      methodCore_dt M m st, methodCore_dt_est M m st⟩
  · refine Or.inr (Or.inl ⟨rfl, ?_, ?_⟩)
    · show (methodCore M m st).nv.t0 + (methodCore M m st).nv.dt = st.nv.t0 + st.nv.dt
      rw [methodCore_t0, methodCore_dt]
    · show (methodCore M m st).nv.t1 = st.nv.t1
      exact methodCore_t1 M m st
  · refine Or.inr (Or.inr ⟨rfl, ?_, ?_, ?_, ?_⟩)
    · exact methodCore_t0 M m st
    · exact methodCore_t1 M m st
    · show (methodCore M m st).nv.dt / M.numconsts.dt_decrease =
        st.nv.dt / M.numconsts.dt_decrease
      rw [methodCore_dt]
    · rw [← methodCore_dt M m st]
      exact h3.2
  · exact Or.inl ⟨rfl, methodCore_t0 M m st, methodCore_t1 M m st,
      methodCore_dt M m st, methodCore_dt_est M m st⟩

/-- The method-order loop of `solve` either breaks accepting (`t0` advanced
by `dt`), breaks shrinking (`t0` kept, `dt_est = dt / dt_decrease`, only
possible for `dt > reldtmin`), or completes without break (`t0` and `dt`
untouched); `t1` is never touched. -/
lemma methodLoop_cases {ns nf : ℕ} (M : ELSModel ns nf) :
    ∀ (ms : List ℕ) (st : ELSState ns nf),
      (methodLoop M ms st).1.nv.t1 = st.nv.t1 ∧
      (((methodLoop M ms st).2 = true ∧
          (methodLoop M ms st).1.nv.t0 = st.nv.t0 + st.nv.dt) ∨
        ((methodLoop M ms st).2 = true ∧
          (methodLoop M ms st).1.nv.t0 = st.nv.t0 ∧
          (methodLoop M ms st).1.nv.dt_est = st.nv.dt / M.numconsts.dt_decrease ∧
          M.reldtmin < st.nv.dt) ∨
        ((methodLoop M ms st).2 = false ∧
          (methodLoop M ms st).1.nv.t0 = st.nv.t0 ∧
          (methodLoop M ms st).1.nv.dt = st.nv.dt)) := by
  intro ms
  induction ms with
  | nil => exact fun st => ⟨rfl, Or.inr (Or.inr ⟨rfl, rfl, rfl⟩)⟩
  | cons m rest ih =>
    intro st
    rcases methodStep_cases M m st with ⟨he, h0, h1, hdt, hde⟩ | ⟨he, h0, h1⟩ |
      ⟨he, h0, h1, hde, hgt⟩
    · have hred : methodLoop M (m :: rest) st =
          methodLoop M rest (methodStep M m st).1 := by
        simp only [methodLoop, he]
      obtain ⟨iht1, ihcase⟩ := ih (methodStep M m st).1
      rw [hred]
      refine ⟨by rw [iht1, h1], ?_⟩
      rcases ihcase with ⟨hb, ht⟩ | ⟨hb, ht, hest, hlt⟩ | ⟨hb, ht, htd⟩
      · exact Or.inl ⟨hb, by rw [ht, h0, hdt]⟩
      · refine Or.inr (Or.inl ⟨hb, by rw [ht, h0], by rw [hest, hdt], ?_⟩)
        rw [← hdt]
        exact hlt
      · exact Or.inr (Or.inr ⟨hb, by rw [ht, h0], by rw [htd, hdt]⟩)
    · have hred : methodLoop M (m :: rest) st = ((methodStep M m st).1, true) := by
        simp only [methodLoop, he]
      rw [hred]
      exact ⟨h1, Or.inl ⟨rfl, h0⟩⟩
    · have hred : methodLoop M (m :: rest) st = ((methodStep M m st).1, true) := by
        simp only [methodLoop, he]
      rw [hred]
      exact ⟨h1, Or.inr (Or.inl ⟨rfl, h0, hde, hgt⟩)⟩

/-- Restatement of the method-loop classification for `methodLoopAll`. -/
lemma methodLoopAll_cases {ns nf : ℕ} (M : ELSModel ns nf) (st : ELSState ns nf) :
    (methodLoopAll M st).1.nv.t1 = st.nv.t1 ∧
    (((methodLoopAll M st).2 = true ∧
        (methodLoopAll M st).1.nv.t0 = st.nv.t0 + st.nv.dt) ∨
      ((methodLoopAll M st).2 = true ∧
        (methodLoopAll M st).1.nv.t0 = st.nv.t0 ∧
        (methodLoopAll M st).1.nv.dt_est = st.nv.dt / M.numconsts.dt_decrease ∧
        M.reldtmin < st.nv.dt) ∨
      ((methodLoopAll M st).2 = false ∧
        (methodLoopAll M st).1.nv.t0 = st.nv.t0 ∧
        (methodLoopAll M st).1.nv.dt = st.nv.dt)) :=
  methodLoop_cases M (List.range' 1 M.numconsts.nmb_methods) st

/-- `stage0` touches only the buffers, the call counter and the indices. -/
lemma stage0_pres4 {ns nf : ℕ} (M : ELSModel ns nf) (st : ELSState ns nf) :
    pres4 (stage0 M st) = pres4 st := by
  unfold stage0
  split <;> rfl

/-- One outer-loop iteration of `solve` either advances `t0` by the chosen
sub-interval length `dt = min(t1 - t0, max(dt_est, reldtmin))`, or keeps
`t0` and shrinks the step estimate to `dt / dt_decrease`, the latter only
when `dt > reldtmin`; `t1` is never touched. -/
lemma outerIter_cases {ns nf : ℕ} (M : ELSModel ns nf) (st : ELSState ns nf) :
    (outerIter M st).nv.t1 = st.nv.t1 ∧
    ((outerIter M st).nv.t0 = st.nv.t0 +
        min (st.nv.t1 - st.nv.t0) (max st.nv.dt_est M.reldtmin) ∨
      ((outerIter M st).nv.t0 = st.nv.t0 ∧
        (outerIter M st).nv.dt_est =
          min (st.nv.t1 - st.nv.t0) (max st.nv.dt_est M.reldtmin) /
            M.numconsts.dt_decrease ∧
        M.reldtmin < min (st.nv.t1 - st.nv.t0) (max st.nv.dt_est M.reldtmin))) := by
  have hpres := stage0_pres4 M (beginIteration M st)
  have h0 : (stage0 M (beginIteration M st)).nv.t0 = st.nv.t0 :=
    congrArg (fun p => p.1) hpres
  have h1 : (stage0 M (beginIteration M st)).nv.t1 = st.nv.t1 :=
    congrArg (fun p => p.2.1) hpres
  have hdt : (stage0 M (beginIteration M st)).nv.dt =
      min (st.nv.t1 - st.nv.t0) (max st.nv.dt_est M.reldtmin) :=
    congrArg (fun p => p.2.2.1) hpres
  obtain ⟨lt1, lcase⟩ := methodLoopAll_cases M (stage0 M (beginIteration M st))
  have houter : outerIter M st =
      fallback M (methodLoopAll M (stage0 M (beginIteration M st))).1
        (methodLoopAll M (stage0 M (beginIteration M st))).2 := rfl
  rcases lcase with ⟨hb, ht⟩ | ⟨hb, ht, hest, hlt⟩ | ⟨hb, ht, htd⟩
  · have hfb : outerIter M st =
        (methodLoopAll M (stage0 M (beginIteration M st))).1 := by
      rw [houter, hb]
      simp [fallback]
    rw [hfb]
    exact ⟨by rw [lt1, h1], Or.inl (by rw [ht, h0, hdt])⟩
  · have hfb : outerIter M st =
        (methodLoopAll M (stage0 M (beginIteration M st))).1 := by
      rw [houter, hb]
      simp [fallback]
    rw [hfb]
    refine ⟨by rw [lt1, h1], Or.inr ⟨by rw [ht, h0], by rw [hest, hdt], ?_⟩⟩
    rw [← hdt]
    exact hlt
  · rw [houter, hb]
    unfold fallback
    rw [if_neg Bool.false_ne_true]
    by_cases hle : (methodLoopAll M (stage0 M (beginIteration M st))).1.nv.dt ≤
        M.reldtmin
    · rw [if_pos hle]
      refine ⟨?_, Or.inl ?_⟩
      · show (methodLoopAll M (stage0 M (beginIteration M st))).1.nv.t1 = st.nv.t1
        rw [lt1, h1]
      · show (methodLoopAll M (stage0 M (beginIteration M st))).1.nv.t0 +
            (methodLoopAll M (stage0 M (beginIteration M st))).1.nv.dt =
          st.nv.t0 + min (st.nv.t1 - st.nv.t0) (max st.nv.dt_est M.reldtmin)
        rw [ht, h0, htd, hdt]
    · rw [if_neg hle]
      refine ⟨?_, Or.inr ⟨?_, ?_, ?_⟩⟩
      · show (methodLoopAll M (stage0 M (beginIteration M st))).1.nv.t1 = st.nv.t1
        rw [lt1, h1]
      · show (methodLoopAll M (stage0 M (beginIteration M st))).1.nv.t0 = st.nv.t0
        rw [ht, h0]
      · show (methodLoopAll M (stage0 M (beginIteration M st))).1.nv.dt /
            M.numconsts.dt_decrease =
          min (st.nv.t1 - st.nv.t0) (max st.nv.dt_est M.reldtmin) /
            M.numconsts.dt_decrease
        rw [htd, hdt]
      · rw [← hdt, ← htd]
        exact lt_of_not_le hle

/-- A `foldl max` of zeros over any list collapses to zero. -/
lemma foldl_max_zero {α : Type} (l : List α) :
    l.foldl (fun e (_ : α) => max e (0 : ℝ)) 0 = 0 := by
  induction l with
  | nil => rfl
  | cons x xs ih =>
    rw [List.foldl_cons, max_self]
    exact ih

/-- Unfolding equation of the fuelled outer loop. -/
lemma solveLoop_succ {ns nf : ℕ} (M : ELSModel ns nf) (fuel : ℕ) (st : ELSState ns nf) :
    solveLoop M (fuel + 1) st =
      if st.nv.t0 < st.nv.t1 - epsELS then solveLoop M fuel (outerIter M st)
      else some st := rfl

/-- With a positive floor and a ratio above one, every real is below some
geometric bound. -/
lemma exists_le_mul_pow (r dd x : ℝ) (hr : 0 < r) (hdd : 1 < dd) :
    ∃ k : ℕ, x ≤ r * dd ^ k := by
  obtain ⟨k, hk⟩ := pow_unbounded_of_one_lt (x / r) hdd
  refine ⟨k, ?_⟩
  rw [div_lt_iff₀ hr] at hk
  nlinarith [pow_pos (lt_trans one_pos hdd) k]

/-- Double induction behind the termination of `solve`: `n` bounds the
number of sub-interval advances still needed (each advance moves `t0` by at
least `min(1e-14, reldtmin)`), `k` bounds the number of consecutive
step-size shrinks still possible (each divides the step estimate by
`dt_decrease`, and once the estimate falls to `reldtmin` the iteration must
advance). -/
lemma solveLoop_good_of_bounds {ns nf : ℕ} (M : ELSModel ns nf)
    (hr : 0 < M.reldtmin) (hdd : 1 < M.numconsts.dt_decrease) :
    ∀ (n k : ℕ) (st : ELSState ns nf),
      st.nv.t1 - st.nv.t0 - epsELS ≤ n * min epsELS M.reldtmin →
      st.nv.dt_est ≤ M.reldtmin * M.numconsts.dt_decrease ^ k →
      ∃ fuel, (solveLoop M fuel st).isSome = true := by
  have hδ : 0 < min epsELS M.reldtmin := lt_min (by norm_num [epsELS]) hr
  have hdd0 : 0 < M.numconsts.dt_decrease := lt_trans one_pos hdd
  intro n
  induction n with
  | zero =>
    intro k st hb _
    rw [Nat.cast_zero, zero_mul] at hb
    refine ⟨0 + 1, ?_⟩
    rw [solveLoop_succ, if_neg (by intro h; linarith)]
    rfl
  | succ n ihn =>
    intro k
    induction k with
    | zero =>
      intro st hb he
      by_cases hc : st.nv.t0 < st.nv.t1 - epsELS
      · obtain ⟨ht1, hcase⟩ := outerIter_cases M st
        rcases hcase with hadv | ⟨ht0, hest, hgt⟩
        · obtain ⟨k2, hk2⟩ := exists_le_mul_pow M.reldtmin M.numconsts.dt_decrease
            (outerIter M st).nv.dt_est hr hdd
          have hDlow : min epsELS M.reldtmin ≤
              min (st.nv.t1 - st.nv.t0) (max st.nv.dt_est M.reldtmin) := by
            refine le_min (le_trans (min_le_left _ _) (by linarith)) ?_
            exact le_trans (min_le_right _ _) (le_max_right _ _)
          have hb2 : (outerIter M st).nv.t1 - (outerIter M st).nv.t0 - epsELS ≤
              n * min epsELS M.reldtmin := by
            rw [ht1, hadv]
            push_cast at hb ⊢
            linarith
          obtain ⟨fuel, hf⟩ := ihn k2 (outerIter M st) hb2 hk2
          refine ⟨fuel + 1, ?_⟩
          rw [solveLoop_succ, if_pos hc]
          exact hf
        · exfalso
          rw [pow_zero, mul_one] at he
          exact absurd hgt (not_lt.mpr
            (le_trans (min_le_right _ _) (max_le he le_rfl)))
      · refine ⟨0 + 1, ?_⟩
        rw [solveLoop_succ, if_neg hc]
        rfl
    | succ k ihk =>
      intro st hb he
      by_cases hc : st.nv.t0 < st.nv.t1 - epsELS
      · obtain ⟨ht1, hcase⟩ := outerIter_cases M st
        rcases hcase with hadv | ⟨ht0, hest, hgt⟩
        · obtain ⟨k2, hk2⟩ := exists_le_mul_pow M.reldtmin M.numconsts.dt_decrease
            (outerIter M st).nv.dt_est hr hdd
          have hDlow : min epsELS M.reldtmin ≤
              min (st.nv.t1 - st.nv.t0) (max st.nv.dt_est M.reldtmin) := by
            refine le_min (le_trans (min_le_left _ _) (by linarith)) ?_
            exact le_trans (min_le_right _ _) (le_max_right _ _)
          have hb2 : (outerIter M st).nv.t1 - (outerIter M st).nv.t0 - epsELS ≤
              n * min epsELS M.reldtmin := by
            rw [ht1, hadv]
            push_cast at hb ⊢
            linarith
          obtain ⟨fuel, hf⟩ := ihn k2 (outerIter M st) hb2 hk2
          refine ⟨fuel + 1, ?_⟩
          rw [solveLoop_succ, if_pos hc]
          exact hf
        · have hpow : (1 : ℝ) ≤ M.numconsts.dt_decrease ^ (k + 1) :=
            one_le_pow₀ (le_of_lt hdd)
          have hDmax : min (st.nv.t1 - st.nv.t0) (max st.nv.dt_est M.reldtmin) ≤
              M.reldtmin * M.numconsts.dt_decrease ^ (k + 1) := by
            refine le_trans (min_le_right _ _) (max_le he ?_)
            nlinarith
          have hest2 : (outerIter M st).nv.dt_est ≤
              M.reldtmin * M.numconsts.dt_decrease ^ k := by
            rw [hest]
            rw [div_le_iff₀ hdd0]
            calc min (st.nv.t1 - st.nv.t0) (max st.nv.dt_est M.reldtmin) ≤
                M.reldtmin * M.numconsts.dt_decrease ^ (k + 1) := hDmax
              _ = M.reldtmin * M.numconsts.dt_decrease ^ k *
                  M.numconsts.dt_decrease := by ring
          have hb2 : (outerIter M st).nv.t1 - (outerIter M st).nv.t0 - epsELS ≤
              (n + 1 : ℕ) * min epsELS M.reldtmin := by
            rw [ht1, ht0]
            exact hb
          obtain ⟨fuel, hf⟩ := ihk (outerIter M st) hb2 hest2
          refine ⟨fuel + 1, ?_⟩
          rw [solveLoop_succ, if_pos hc]
          exact hf
      · refine ⟨0 + 1, ?_⟩
        rw [solveLoop_succ, if_neg hc]
        rfl

/-- C3. Termination: for every model with `reldtmin > 0`,
`dt_decrease = 10` (its freshly constructed value) and at least one method
order, `solve` terminates: some finite fuel makes the outer loop reach
`t0 ≥ t1 - 1e-14` and return a result. -/
theorem solve_terminates {ns nf : ℕ} (M : ELSModel ns nf)
    (hr : 0 < M.reldtmin) (hdd10 : M.numconsts.dt_decrease = 10)
    (hN : 1 ≤ M.numconsts.nmb_methods) (st : ELSState ns nf) :
    ∃ fuel, (solve M fuel st).isSome = true := by
  have hdd : 1 < M.numconsts.dt_decrease := by
    rw [hdd10]
    norm_num
  have hδ : 0 < min epsELS M.reldtmin := lt_min (by norm_num [epsELS]) hr
  obtain ⟨k, hk⟩ := exists_le_mul_pow M.reldtmin M.numconsts.dt_decrease 1 hr hdd
  obtain ⟨n, hn⟩ := exists_nat_ge ((1 - epsELS) / min epsELS M.reldtmin)
  have hb : (1 : ℝ) - 0 - epsELS ≤ n * min epsELS M.reldtmin := by
    rw [div_le_iff₀ hδ] at hn
    linarith
  obtain ⟨fuel, hf⟩ := solveLoop_good_of_bounds M hr hdd n k
    (reset_sum_fluxes
      { st with nv := { st.nv with t0 := 0, t1 := 1, dt_est := 1, f0_ready := false } })
    hb hk
  refine ⟨fuel, ?_⟩
  unfold solve
  rw [Option.isSome_map']
  exact hf

/-- Witness for C3 at the doctest configuration `exModel`. -/
theorem solve_terminates_witness :
    ∃ fuel, (solve exModel fuel exState).isSome = true :=
  solve_terminates exModel (by norm_num [exModel]) rfl
    (by norm_num [exModel, mkNumConstsELS]) exState

/-- C2. Silent fallback accept at minimum step: whenever the method-order
loop of an outer iteration completes without `break` and the chosen step
satisfies `dt ≤ reldtmin`, the iteration accepts the sub-interval anyway —
it adds the fluxes onto the sums, advances `t0` by `dt`, commits the states
via `new2old` and clears `f0_ready` — and `outerIter` (hence `solve`)
returns normally, the embedding being total. -/
theorem solve_fallback_accept_at_min_step {ns nf : ℕ} (M : ELSModel ns nf)
    (st : ELSState ns nf)
    (hml : (methodLoopAll M (stage0 M (beginIteration M st))).2 = false)
    (hdt : (methodLoopAll M (stage0 M (beginIteration M st))).1.nv.dt ≤ M.reldtmin) :
    outerIter M st =
      new2old (advance_t0 (addup_fluxes
        { (methodLoopAll M (stage0 M (beginIteration M st))).1 with
          nv := { (methodLoopAll M (stage0 M (beginIteration M st))).1.nv with
                  f0_ready := false } })) ∧
    (outerIter M st).nv.t0 =
      (methodLoopAll M (stage0 M (beginIteration M st))).1.nv.t0 +
        (methodLoopAll M (stage0 M (beginIteration M st))).1.nv.dt ∧
    (∀ i, (outerIter M st).seq.fSum i =
      (methodLoopAll M (stage0 M (beginIteration M st))).1.seq.fSum i +
        (methodLoopAll M (stage0 M (beginIteration M st))).1.seq.fVal i) ∧
    (outerIter M st).seq.sOld =
      (methodLoopAll M (stage0 M (beginIteration M st))).1.seq.sNew ∧
    (outerIter M st).nv.f0_ready = false := by
  have houter : outerIter M st =
      fallback M (methodLoopAll M (stage0 M (beginIteration M st))).1
        (methodLoopAll M (stage0 M (beginIteration M st))).2 := rfl
  have hfb : outerIter M st =
      new2old (advance_t0 (addup_fluxes
        { (methodLoopAll M (stage0 M (beginIteration M st))).1 with
          nv := { (methodLoopAll M (stage0 M (beginIteration M st))).1.nv with
                  f0_ready := false } })) := by
    rw [houter, hml]
    unfold fallback
    rw [if_neg Bool.false_ne_true, if_pos hdt]
  refine ⟨hfb, ?_, ?_, ?_, ?_⟩
  · rw [hfb]
    rfl
  · intro i
    rw [hfb]
    rfl
  · rw [hfb]
    rfl
  · rw [hfb]
    rfl

/-- C1. Zero-rate identity: for every ELS model whose `PART_ODE_METHODS`
callables produce zero derivatives (they zero every numeric flux value) and
whose `FULL_ODE_METHODS` callables leave every state's `new` value equal to
its `old` value, one `solve` call (with enough fuel) terminates leaving
every ODE state's `old` value unchanged, every numeric flux's externally
visible value at zero, and `nmb_calls` incremented by exactly 2 — one
right-hand-side evaluation for method order 1 and one for method order 2
confirming convergence, the whole interval `[0, 1]` accepted as one
sub-interval (`t0 = 1`, `dt = 1`). -/
theorem solve_zero_rate_identity {ns nf : ℕ} (M : ELSModel ns nf) (st : ELSState ns nf)
    (hpart : ∀ σ : Seqs ns nf, M.part_ode_methods.foldl (fun σ f => f σ) σ =
      { σ with fVal := fun _ => 0 })
    (hfull : ∀ σ : Seqs ns nf, M.full_ode_methods.foldl (fun σ f => f σ) σ =
      { σ with sNew := σ.sOld })
    (hamax : 0 ≤ M.abserrormax)
    (hN : 2 ≤ M.numconsts.nmb_methods) :
    ∃ fin : ELSState ns nf,
      (∀ fuel : ℕ, solve M (fuel + 2) st = some fin) ∧
      fin.seq.sOld = st.seq.sOld ∧
      (∀ i, fin.seq.fVal i = 0) ∧
      fin.nv.nmb_calls = st.nv.nmb_calls + 2 ∧
      fin.nv.t0 = 1 ∧
      fin.nv.dt = 1 := by
  obtain ⟨N2, hN2⟩ : ∃ n2, M.numconsts.nmb_methods = n2 + 2 :=
    ⟨M.numconsts.nmb_methods - 2, by omega⟩
  set stI : ELSState ns nf := reset_sum_fluxes
    { st with nv := { st.nv with t0 := 0, t1 := 1, dt_est := 1, f0_ready := false } }
    with hstI
  set X : ELSState ns nf := stage0 M (beginIteration M stI) with hX
  have hdt1 : min ((1 : ℝ) - 0) (max 1 M.reldtmin) = 1 := by
    rw [sub_zero]
    exact min_eq_left (le_max_left _ _)
  have hXeq : X =
      { nv := { nmb_calls := st.nv.nmb_calls + 1, t0 := 0, t1 := 1, dt_est := 1,
                dt := 1, idx_method := 0, idx_stage := 0,
                error := st.nv.error, last_error := 999999,
                extrapolated_error := st.nv.extrapolated_error, f0_ready := false },
        seq := { sOld := st.seq.sOld, sNew := st.seq.sNew,
                 sPoints := fun i => Function.update (st.seq.sPoints i) 0 (st.seq.sNew i),
                 sResults := fun i => Function.update (st.seq.sResults i) 0 (st.seq.sNew i),
                 fVal := fun _ => 0,
                 fPoints := fun i => Function.update (st.seq.fPoints i) 0 0,
                 fResults := st.seq.fResults,
                 fSum := fun _ => 0 } } := by
    rw [hX, hstI]
    simp [stage0, beginIteration, reset_sum_fluxes, calculate_single_terms,
      set_idx_method, set_idx_stage, set_point_fluxes, set_point_states,
      set_result_states, hpart, hdt1]
  set Y : ELSState ns nf := methodCore M 1 X with hY
  have hYeq : Y =
      { nv := { nmb_calls := st.nv.nmb_calls + 1, t0 := 0, t1 := 1, dt_est := 1,
                dt := 1, idx_method := 1, idx_stage := 1,
                error := (List.finRange nf).foldl
                  (fun e i => max e |st.seq.fResults i 0|) 0,
                last_error := 999999,
                extrapolated_error := -(9999 / 10), f0_ready := false },
        seq := { sOld := st.seq.sOld, sNew := st.seq.sOld,
                 sPoints := fun i => Function.update
                   (Function.update (st.seq.sPoints i) 0 (st.seq.sNew i)) 1 (st.seq.sOld i),
                 sResults := fun i => Function.update
                   (Function.update (st.seq.sResults i) 0 (st.seq.sNew i)) 1 (st.seq.sOld i),
                 fVal := fun _ => 0,
                 fPoints := fun i => Function.update (st.seq.fPoints i) 0 0,
                 fResults := fun i => Function.update (st.seq.fResults i) 1 0,
                 fSum := fun _ => 0 } } := by
    rw [hY, hXeq]
    simp [methodCore, stageLoopA, stageLoopB, stageA_body, stageB_body,
      set_idx_method, set_idx_stage, get_point_states, set_point_states,
      set_result_states, set_point_fluxes, set_result_fluxes, integrate_fluxes,
      calculate_single_terms, calculate_full_terms, calculate_error,
      extrapolate_error, hpart, hfull, List.range', Finset.sum_range_succ,
      Function.update_same, Function.update_noteq]
  set Z : ELSState ns nf := methodCore M 2 Y with hZ
  have hZeq : Z =
      { nv := { nmb_calls := st.nv.nmb_calls + 2, t0 := 0, t1 := 1, dt_est := 1,
                dt := 1, idx_method := 2, idx_stage := 2,
                error := 0, last_error := 999999,
                extrapolated_error := -(9999 / 10), f0_ready := false },
        seq := { sOld := st.seq.sOld, sNew := st.seq.sOld,
                 sPoints := fun i => Function.update (Function.update
                   (Function.update (st.seq.sPoints i) 0 (st.seq.sNew i)) 1
                     (st.seq.sOld i)) 2 (st.seq.sOld i),
                 sResults := fun i => Function.update (Function.update
                   (Function.update (st.seq.sResults i) 0 (st.seq.sNew i)) 1
                     (st.seq.sOld i)) 2 (st.seq.sOld i),
                 fVal := fun _ => 0,
                 fPoints := fun i => Function.update
                   (Function.update (st.seq.fPoints i) 0 0) 1 0,
                 fResults := fun i => Function.update
                   (Function.update (st.seq.fResults i) 1 0) 2 0,
                 fSum := fun _ => 0 } } := by
    rw [hZ, hYeq]
    simp [methodCore, stageLoopA, stageLoopB, stageA_body, stageB_body,
      set_idx_method, set_idx_stage, get_point_states, set_point_states,
      set_result_states, set_point_fluxes, set_result_fluxes, integrate_fluxes,
      calculate_single_terms, calculate_full_terms, calculate_error,
      extrapolate_error, hpart, hfull, List.range', Finset.sum_range_succ,
      Function.update_same, Function.update_noteq, Function.update_idem,
      foldl_max_zero]
  have hstep1 : methodStep M 1 X = (Y, MethodExit.nextOrder) := by
    rw [hY]
    simp [methodStep]
  set A : ELSState ns nf := new2old (advance_t0 (addup_fluxes
    { Z with nv := { Z.nv with
        dt_est := M.numconsts.dt_increase * Z.nv.dt, f0_ready := false } })) with hA
  have hstep2 : methodStep M 2 Y = (A, MethodExit.accepted) := by
    simp only [methodStep]
    rw [if_neg (by norm_num : ¬(2 = 1)),
      if_pos (show (methodCore M 2 Y).nv.error ≤ M.abserrormax by
        rw [← hZ, hZeq]
        exact hamax)]
  have hrange : List.range' 1 M.numconsts.nmb_methods = 1 :: 2 :: List.range' 3 N2 := by
    rw [hN2]
    simp [List.range']
  have hloop : methodLoopAll M X = (A, true) := by
    show methodLoop M (List.range' 1 M.numconsts.nmb_methods) X = (A, true)
    rw [hrange]
    simp only [methodLoop, hstep1, hstep2]
  have houter : outerIter M stI = A := by
    show fallback M (methodLoopAll M X).1 (methodLoopAll M X).2 = A
    rw [hloop]
    simp [fallback]
  have hAt0 : A.nv.t0 = 1 := by
    rw [hA, hZeq]
    simp [new2old, advance_t0, addup_fluxes]
  have hAt1 : A.nv.t1 = 1 := by
    rw [hA, hZeq]
    simp [new2old, advance_t0, addup_fluxes]
  have hrun : ∀ fuel, solveLoop M (fuel + 2) stI = some A := by
    intro fuel
    rw [show fuel + 2 = (fuel + 1) + 1 from rfl, solveLoop_succ]
    rw [if_pos (show stI.nv.t0 < stI.nv.t1 - epsELS by
      rw [hstI]
      show (0 : ℝ) < 1 - epsELS
      norm_num [epsELS])]
    rw [houter, solveLoop_succ]
    rw [if_neg (show ¬A.nv.t0 < A.nv.t1 - epsELS by
      rw [hAt0, hAt1]
      norm_num [epsELS])]
  refine ⟨get_sum_fluxes A, fun fuel => ?_, ?_, fun i => ?_, ?_, ?_, ?_⟩
  · show (solveLoop M (fuel + 2) stI).map get_sum_fluxes = some (get_sum_fluxes A)
    rw [hrun]
    rfl
  · rw [hA, hZeq]
    simp [get_sum_fluxes, new2old, advance_t0, addup_fluxes]
  · rw [hA, hZeq]
    simp [get_sum_fluxes, new2old, advance_t0, addup_fluxes]
  · rw [hA, hZeq]
    simp [get_sum_fluxes, new2old, advance_t0, addup_fluxes]
  · rw [hA, hZeq]
    simp [get_sum_fluxes, new2old, advance_t0, addup_fluxes]
  · rw [hA, hZeq]
    simp [get_sum_fluxes, new2old, advance_t0, addup_fluxes]

/-- Witness for C1 at the doctest configuration: `exModel` with
zero-derivative callables and state value `1.0`. -/
theorem solve_zero_rate_identity_witness :
    ∃ fin : ELSState 1 1,
      (∀ fuel : ℕ, solve exModel (fuel + 2) exState = some fin) ∧
      fin.seq.sOld = exState.seq.sOld ∧
      (∀ i, fin.seq.fVal i = 0) ∧
      fin.nv.nmb_calls = exState.nv.nmb_calls + 2 ∧
      fin.nv.t0 = 1 ∧
      fin.nv.dt = 1 :=
  solve_zero_rate_identity exModel exState
    (fun σ => by simp [exModel, zeroPartTerm])
    (fun σ => by simp [exModel, zeroFullTerm])
    (by norm_num [exModel])
    (by norm_num [exModel, mkNumConstsELS])

/-- Witness for C2 at `exModelMin`: a single method order that always falls
through, with `dt = reldtmin = 1`, so the fallback accept fires. -/
theorem solve_fallback_accept_at_min_step_witness :
    (outerIter exModelMin exState0).nv.t0 =
      (methodLoopAll exModelMin
        (stage0 exModelMin (beginIteration exModelMin exState0))).1.nv.t0 +
        (methodLoopAll exModelMin
          (stage0 exModelMin (beginIteration exModelMin exState0))).1.nv.dt ∧
    (outerIter exModelMin exState0).nv.f0_ready = false := by
  have h1 : ∀ u : ELSState 0 0,
      (methodStep exModelMin 1 u).2 = MethodExit.nextOrder := fun u => by
    simp [methodStep]
  have hml : (methodLoopAll exModelMin
      (stage0 exModelMin (beginIteration exModelMin exState0))).2 = false := by
    show (methodLoop exModelMin (List.range' 1 exModelMin.numconsts.nmb_methods)
      (stage0 exModelMin (beginIteration exModelMin exState0))).2 = false
    rw [show exModelMin.numconsts.nmb_methods = 1 from rfl]
    simp [methodLoop, h1]
  have hdt : (methodLoopAll exModelMin
      (stage0 exModelMin (beginIteration exModelMin exState0))).1.nv.dt ≤
        exModelMin.reldtmin := by
    obtain ⟨-, hcase⟩ := methodLoopAll_cases exModelMin
      (stage0 exModelMin (beginIteration exModelMin exState0))
    rcases hcase with ⟨hb, -⟩ | ⟨hb, -⟩ | ⟨-, -, htd⟩
    · rw [hml] at hb
      cases hb
    · rw [hml] at hb
      cases hb
    · rw [htd]
      have hs : (stage0 exModelMin (beginIteration exModelMin exState0)).nv.dt =
          (beginIteration exModelMin exState0).nv.dt :=
        congrArg (fun p => p.2.2.1)
          (stage0_pres4 exModelMin (beginIteration exModelMin exState0))
      rw [hs]
      show min (exState0.nv.t1 - exState0.nv.t0)
        (max exState0.nv.dt_est exModelMin.reldtmin) ≤ exModelMin.reldtmin
      norm_num [exState0, NumVarsELS.init, exModelMin]
  have h := solve_fallback_accept_at_min_step exModelMin exState0 hml hdt
  exact ⟨h.2.1, h.2.2.2.2⟩

/-- Witness for C6: the general branches applied at the doctest iteration
states. -/
theorem extrapolate_error_formula_witness :
    (extrapolate_error exModel (exStateE 10)).nv.extrapolated_error =
      Real.exp (Real.log (exStateE 10).nv.error +
        (Real.log (exStateE 10).nv.error - Real.log (exStateE 10).nv.last_error) *
          ((exModel.numconsts.nmb_methods : ℝ) - ((exStateE 10).nv.idx_method : ℝ))) ∧
    (extrapolate_error exModel (exStateE 2)).nv.extrapolated_error = -(9999 / 10) :=
  ⟨extrapolate_error_formula.1 1 1 exModel (exStateE 10)
      (by norm_num [exStateE, exNvE, NumVarsELS.init]),
    extrapolate_error_formula.2.1 1 1 exModel (exStateE 2)
      (by norm_num [exStateE, exNvE, NumVarsELS.init])⟩

end

end HydPy
